import Mathlib

/-!
Shallow embedding of the contrastive subsystem of the repository
(src/domino/cnc.py and src/domino/vision_ks.py), together with theorems
settling the specification claims about it.

Numeric tensors are modelled over the real numbers: a tensor is a list of
reals and a batch of embeddings is a list of such lists.  Randomness
(np.random.choice, the per-anchor draws) is modelled nondeterministically
by quantifying over an arbitrary pick function.  Fallible Python code
(unbound locals, a choice from an empty pool) is modelled with
Except/Option.
-/

namespace Domino

/-! ### Model of src/domino/cnc.py: SupervisedContrastiveLoss -/

/-- Dot product of two vectors: the sum of the elementwise products. -/
noncomputable def dotProd (u v : List ℝ) : ℝ :=
  (List.zipWith (fun a b => a * b) u v).sum

/-- Euclidean norm of a vector. -/
noncomputable def l2norm (u : List ℝ) : ℝ :=
  Real.sqrt (dotProd u u)

/-- Cosine similarity between two vectors, as computed by
nn.CosineSimilarity for one pair of rows. -/
noncomputable def cosineSim (u v : List ℝ) : ℝ :=
  dotProd u v / (l2norm u * l2norm v)

namespace SupervisedContrastiveLoss

/-- The state a constructed SupervisedContrastiveLoss module carries:
the temperature read from config["temperature"]. -/
structure State where
  temperature : ℝ

/-- The configuration error the spec demands for a non-positive
temperature. -/
inductive ConfigError
  | invalidTemperature
deriving DecidableEq

/-- Model of SupervisedContrastiveLoss.__init__ (src/domino/cnc.py lines
112-117): it stores config["temperature"] and builds the similarity
module; it performs no validation of the temperature, so construction
always succeeds. -/
def init (temperature : ℝ) : Except ConfigError State :=
  .ok ⟨temperature⟩

/-- Model of the numeric body of SupervisedContrastiveLoss.forward
(src/domino/cnc.py lines 119-139) at the embedding level: given the
anchor embedding a, the positive embeddings ps and the negative
embeddings ns, it computes the cosine similarities, exponentiates them
divided by the temperature, sums the negative exponentials, forms the
per-positive log-probabilities and returns the mean of their negations
(loss.mean()). -/
noncomputable def forward (T : ℝ) (a : List ℝ) (ps ns : List (List ℝ)) : ℝ :=
  let pos_sim := ps.map (fun p => cosineSim a p)
  let pos_exp := pos_sim.map (fun s => Real.exp (s / T))
  let neg_sim := ns.map (fun n => cosineSim a n)
  let neg_exp := neg_sim.map (fun s => Real.exp (s / T))
  let neg_exp_sum := neg_exp.sum
  let log_probs := pos_exp.map (fun pe => Real.log pe - Real.log (pe + neg_exp_sum))
  let loss := log_probs.map (fun x => -1 * x)
  loss.sum / (loss.length : ℝ)

/-- A Python value returned to the trainer: either a single 0-dimensional
tensor (a scalar) or a 3-tuple of scalars. -/
inductive PyValue
  | scalar (r : ℝ)
  | triple (x y z : ℝ)

/-- What the source's forward actually returns (its final statement is
return loss.mean()): one scalar value. -/
noncomputable def forwardReturn (T : ℝ) (a : List ℝ) (ps ns : List (List ℝ)) : PyValue :=
  .scalar (forward T a ps ns)

/-- Model of the trainer's destructuring assignment in
Classifier.training_step (src/domino/vision_ks.py line 274):
three names are bound from the call's result, which succeeds only when
the result is a 3-tuple; unpacking a scalar raises at run time
(modelled as none). -/
def unpackThree : PyValue → Option (ℝ × ℝ × ℝ)
  | .triple x y z => some (x, y, z)
  | .scalar _ => none

/-- Modelled from the spec (claim C1 wording): the negative mean over
positives of log(exp(pos_sim/T)) - log(exp(pos_sim/T) + sum over
negatives of exp(neg_sim/T)), with pos_sim and neg_sim the cosine
similarities between the anchor and each positive/negative embedding. -/
noncomputable def specLoss (T : ℝ) (a : List ℝ) (ps ns : List (List ℝ)) : ℝ :=
  -(((ps.map (fun p =>
      Real.log (Real.exp (cosineSim a p / T)) -
        Real.log (Real.exp (cosineSim a p / T) +
          (ns.map (fun n => Real.exp (cosineSim a n / T))).sum))).sum) / (ps.length : ℝ))

end SupervisedContrastiveLoss

/-! ### Model of src/domino/cnc.py: load_contrastive_dp / contrastive_loader -/

/-- A row of the datapanel: an identifier together with its group_id.
Other columns are irrelevant to the claims and are abstracted away. -/
structure Row where
  id : ℕ
  group_id : ℤ
deriving DecidableEq

/-- Model of np.random.choice(pool, n): n independent draws with
replacement from the pool, the randomness being an arbitrary pick
function mapping each draw index to an index into the pool; choice from
an empty pool raises (none). -/
def npRandomChoice (pool : List Row) (n : ℕ) (pick : ℕ → ℕ) : Option (List Row) :=
  match pool with
  | [] => none
  | x :: xs => some ((List.range n).map (fun i => (x :: xs).getD (pick i % (x :: xs).length) x))

/-- The two run-time failures of contrastive_loader: the branches for an
anchor group_id outside {0, 3} leave positive_entry/negative_entry
unassigned (an UnboundLocalError at list(positive_entry)), and
np.random.choice raises on an empty stratum. -/
inductive LoaderError
  | unboundLocal
  | emptyPool
deriving DecidableEq

/-- Model of contrastive_loader (src/domino/cnc.py lines 55-67): draw
num_p positives and num_n negatives for the anchor from the strata
selected by the anchor's group_id; only the branches for group_id 0 and
group_id 3 assign the entries. -/
def contrastive_loader (anchor_group_id : ℤ)
    (positive_entries_0 positive_entries_3 negative_entries_0 negative_entries_3 : List Row)
    (num_p num_n : ℕ) (pickP pickN : ℕ → ℕ) :
    Except LoaderError (List Row × List Row) :=
  if anchor_group_id = 0 then
    match npRandomChoice positive_entries_0 num_p pickP,
        npRandomChoice negative_entries_0 num_n pickN with
    | some ps, some ns => .ok (ps, ns)
    | _, _ => .error .emptyPool
  else if anchor_group_id = 3 then
    match npRandomChoice positive_entries_3 num_p pickP,
        npRandomChoice negative_entries_3 num_n pickN with
    | some ps, some ns => .ok (ps, ns)
    | _, _ => .error .emptyPool
  else
    .error .unboundLocal

/-- Model of load_contrastive_dp (src/domino/cnc.py lines 14-52): build
the four strata by filtering on group_id, keep only the majority rows
(group_id 0 or 3), and attach to each kept row the contrastive pair
computed by contrastive_loader on that row's group_id.  num_a is
accepted and unused, as in the source; pickP/pickN supply the per-row
randomness, indexed by the row's position in the majority subset. -/
def load_contrastive_dp (dp : List Row) (num_a num_p num_n : ℕ)
    (pickP pickN : ℕ → ℕ → ℕ) :
    List (Row × Except LoaderError (List Row × List Row)) :=
  let positive_entries_0 := dp.filter (fun r => decide (r.group_id = 2))
  let negative_entries_0 := dp.filter (fun r => decide (r.group_id = 1))
  let positive_entries_3 := dp.filter (fun r => decide (r.group_id = 1))
  let negative_entries_3 := dp.filter (fun r => decide (r.group_id = 2))
  let contrastive_dp := dp.filter (fun r => decide (r.group_id = 0) || decide (r.group_id = 3))
  contrastive_dp.enum.map (fun jr =>
    (jr.2, contrastive_loader jr.2.group_id positive_entries_0 positive_entries_3
      negative_entries_0 negative_entries_3 num_p num_n (pickP jr.1) (pickN jr.1)))

/-! ### Model of src/domino/vision_ks.py: the gaze-proximity pair policy -/

/-- torch.median of a 1-D tensor: the lower of the two middle values,
i.e. the element at index (n-1)/2 of the sorted list. -/
noncomputable def torchMedian (l : List ℝ) : ℝ :=
  (l.insertionSort (fun a b => a ≤ b)).getD ((l.length - 1) / 2) 0

/-- Euclidean distance between two feature vectors
(torch.norm(u - v) for one row). -/
noncomputable def euclidDist (u v : List ℝ) : ℝ :=
  Real.sqrt ((List.zipWith (fun a b => (a - b) ^ 2) u v).sum)

/-- gfeat_dist = torch.norm(gaze_features - a_gfeats, dim=1)
(src/domino/vision_ks.py line 253): the distance from the anchor's
feature vector to every example of the mini-batch, the anchor itself
included. -/
noncomputable def gfeatDist (gaze_features : List (List ℝ)) (a_ix : ℕ) : List ℝ :=
  gaze_features.map (fun f => euclidDist f (gaze_features.getD a_ix []))

/-- Model of the mask construction of Classifier.training_step
(src/domino/vision_ks.py lines 256-272) on an arbitrary distance vector:
alpha is the torch median of ALL the distances of the mini-batch;
the negative indices are those with distance > alpha sharing the
anchor's target; the positive indices are those with distance <= alpha
sharing the anchor's target, the anchor itself removed; the anchor is
skipped (none) when fewer than 2 positives or fewer than 2 negatives
remain.  Under the random-control policy the same code runs on random
draws in place of the distances. -/
noncomputable def gazeSelect (dists : List ℝ) (targets : List ℤ) (a_ix : ℕ) :
    Option (List ℕ × List ℕ) :=
  let alpha := torchMedian dists
  let n_mask := (List.range dists.length).filter
    (fun j => decide (alpha < dists.getD j 0) &&
      decide (targets.getD j 0 = targets.getD a_ix 0))
  let p_mask := (List.range dists.length).filter
    (fun j => decide (dists.getD j 0 ≤ alpha) &&
      decide (targets.getD j 0 = targets.getD a_ix 0) && decide (j ≠ a_ix))
  if p_mask.length < 2 ∨ n_mask.length < 2 then none
  else some (p_mask, n_mask)

/-- The feature-proximity (cnc_gaze) policy of training_step: gazeSelect
applied to the Euclidean distances from the anchor's gaze features. -/
noncomputable def cncGazeSelect (gaze_features : List (List ℝ)) (targets : List ℤ)
    (a_ix : ℕ) : Option (List ℕ × List ℕ) :=
  gazeSelect (gfeatDist gaze_features a_ix) targets a_ix

/-- Modelled from the spec (claim C3 wording): the threshold alpha is
the median of the Euclidean distances from the anchor's feature vector
to every OTHER same-mini-batch example sharing the anchor's target
label; the negative set is the same-label examples with distance >
alpha; the positive set is the same-label examples with distance <=
alpha excluding the anchor; anchors with fewer than 2 positives or
fewer than 2 negatives are skipped. -/
noncomputable def specGazeSelect (gaze_features : List (List ℝ)) (targets : List ℤ)
    (a_ix : ℕ) : Option (List ℕ × List ℕ) :=
  let dists := gfeatDist gaze_features a_ix
  let sameLabelOther := (List.range dists.length).filter
    (fun j => decide (targets.getD j 0 = targets.getD a_ix 0) && decide (j ≠ a_ix))
  let alpha := torchMedian (sameLabelOther.map (fun j => dists.getD j 0))
  let negSet := (List.range dists.length).filter
    (fun j => decide (targets.getD j 0 = targets.getD a_ix 0) &&
      decide (alpha < dists.getD j 0))
  let posSet := (List.range dists.length).filter
    (fun j => decide (targets.getD j 0 = targets.getD a_ix 0) &&
      decide (dists.getD j 0 ≤ alpha) && decide (j ≠ a_ix))
  if posSet.length < 2 ∨ negSet.length < 2 then none
  else some (posSet, negSet)

/-- The amended reading of claim C3: identical to the spec's wording
except that the threshold alpha is the torch median (lower median) of
the distances from the anchor to EVERY example of the mini-batch, the
anchor itself included, not only the same-label ones. -/
noncomputable def amendedGazeSelect (gaze_features : List (List ℝ)) (targets : List ℤ)
    (a_ix : ℕ) : Option (List ℕ × List ℕ) :=
  let dists := gfeatDist gaze_features a_ix
  let alpha := torchMedian dists
  let negSet := (List.range dists.length).filter
    (fun j => decide (targets.getD j 0 = targets.getD a_ix 0) &&
      decide (alpha < dists.getD j 0))
  let posSet := (List.range dists.length).filter
    (fun j => decide (targets.getD j 0 = targets.getD a_ix 0) &&
      decide (dists.getD j 0 ≤ alpha) && decide (j ≠ a_ix))
  if posSet.length < 2 ∨ negSet.length < 2 then none
  else some (posSet, negSet)

/-! ### Model of src/domino/vision_ks.py: the group_id encoding in train -/

/-- The loop of train (src/domino/vision_ks.py lines 510-512): starting
from the target, add 2^(i+1) times the i-th subgroup attribute; a
missing attribute (NaN) propagates through the arithmetic, modelled by
none. -/
def addSubgroups : Option ℤ → ℕ → List (Option ℤ) → Option ℤ
  | acc, _, [] => acc
  | acc, k, a :: rest =>
    addSubgroups
      (match acc, a with
       | some g, some b => some (g + 2 ^ (k + 1) * b)
       | _, _ => none)
      (k + 1) rest

/-- The stored group_id of train (src/domino/vision_ks.py lines 508-515):
the bit-packed value, with NaN results replaced by -1
(group_ids[np.isnan(group_ids)] = -1). -/
def groupIdOf (target : ℤ) (attrs : List (Option ℤ)) : ℤ :=
  match addSubgroups (some target) 0 attrs with
  | some g => g
  | none => -1

/-- Modelled from the spec (claim C4 wording): decode a stored group_id
back into the target (the low bit) and the subgroup bits (the bit at
position i+1 for attribute i). -/
def decodeGroupId (g : ℤ) (n : ℕ) : ℤ × List ℤ :=
  (g % 2, (List.range n).map (fun i => (g / 2 ^ (i + 1)) % 2))

/-- Value of the homogeneous binary encoding b0 + 2*b1 + 4*b2 + ...,
used to reason about the bit-packing. -/
def binEnc : List ℤ → ℤ
  | [] => 0
  | b :: bs => b + 2 * binEnc bs

/-! ### Model of src/domino/vision_ks.py: the robust sampler weights -/

/-- Number of training examples whose group_id equals g
((train_dp["group_id"] == group_i).sum()). -/
def countGroup (gids : List ℤ) (g : ℤ) : ℕ :=
  (gids.filter (fun x => decide (x = g))).length

/-- The weight written for group g (src/domino/vision_ks.py lines
667-671): (1 + (N - count(g)) / N) ** alpha with N the total example
count, the exponent being a real power. -/
noncomputable def groupWeight (gids : List ℤ) (alpha : ℝ) (g : ℤ) : ℝ :=
  (1 + ((gids.length : ℝ) - (countGroup gids g : ℝ)) / (gids.length : ℝ)) ^ alpha

/-- One iteration of the robust-sampler loop: overwrite the weights of
the examples whose group_id equals the current group index. -/
noncomputable def setGroupWeight (gids : List ℤ) (alpha : ℝ) (ws : List ℝ) (g : ℕ) :
    List ℝ :=
  List.zipWith (fun w x => if x = (g : ℤ) then groupWeight gids alpha (g : ℤ) else w)
    ws gids

/-- Model of the robust sampler branch of train (src/domino/vision_ks.py
lines 662-676): weights start at one and the loop over the group range
assigns each group's weight to its members. -/
noncomputable def robustSamplerWeights (gids : List ℤ) (nGroups : ℕ) (alpha : ℝ) :
    List ℝ :=
  (List.range nGroups).foldl (setGroupWeight gids alpha)
    (List.replicate gids.length (1 : ℝ))

/-! ### Model of src/domino/vision_ks.py: free_gpu -/

/-- A tensor as far as free_gpu is concerned: payload plus the two flags
detach() and cpu() act on. -/
structure Tensor where
  data : List ℝ
  requires_grad : Bool
  on_gpu : Bool
deriving Inhabited

/-- tensor.detach(): a new tensor with gradient tracking removed. -/
def Tensor.detach (t : Tensor) : Tensor :=
  { t with requires_grad := false }

/-- tensor.cpu(): a new tensor moved off the device. -/
def Tensor.cpu (t : Tensor) : Tensor :=
  { t with on_gpu := false }

/-- The heap of tensor objects; the caller holds references (indices)
into it. -/
structure Heap where
  objs : List Tensor

/-- One iteration of free_gpu's loop (src/domino/vision_ks.py lines
33-36): the loop variable is rebound to tensor.detach().cpu(), a fresh
object appended to the heap, and when delete is set the local binding
is dropped.  No statement writes through the caller's references. -/
def free_gpu_step (delete : Bool) (acc : Heap × Option ℕ) (r : ℕ) : Heap × Option ℕ :=
  let tensor := (acc.1.objs.getD r default).detach.cpu
  (⟨acc.1.objs ++ [tensor]⟩, if delete then none else some acc.1.objs.length)

/-- Model of free_gpu(tensors, delete) (src/domino/vision_ks.py lines
32-36): iterate the loop body over the caller's references; the result
is the final heap together with the loop variable's final binding. -/
def free_gpu (h : Heap) (tensors : List ℕ) (delete : Bool) : Heap × Option ℕ :=
  tensors.foldl (free_gpu_step delete) (h, none)

/-- Decidable equality of Except values, used to evaluate the model on
concrete datapanels. -/
instance {ε α : Type} [DecidableEq ε] [DecidableEq α] : DecidableEq (Except ε α)
  | .error e, .error f => decidable_of_iff (e = f) (by simp)
  | .error _, .ok _ => isFalse (by simp)
  | .ok _, .error _ => isFalse (by simp)
  | .ok a, .ok b => decidable_of_iff (a = b) (by simp)

/-! ## Helper lemmas -/

lemma neg_one_mul_map_sum {α : Type} (f : α → ℝ) (l : List α) :
    (l.map (fun x => -1 * f x)).sum = -(l.map f).sum := by
  induction l with
  | nil => simp
  | cons x xs ih =>
    rw [List.map_cons, List.map_cons, List.sum_cons, List.sum_cons, ih]
    ring

lemma npRandomChoice_spec (pool : List Row) (n : ℕ) (pick : ℕ → ℕ) (h : pool ≠ []) :
    ∃ res, npRandomChoice pool n pick = some res ∧ res.length = n ∧ ∀ y ∈ res, y ∈ pool := by
  cases pool with
  | nil => exact absurd rfl h
  | cons x xs =>
    refine ⟨_, rfl, by simp, ?_⟩
    intro y hy
    simp only [List.mem_map, List.mem_range] at hy
    obtain ⟨i, _, rfl⟩ := hy
    have hlt : pick i % (x :: xs).length < (x :: xs).length :=
      Nat.mod_lt _ (by simp)
    rw [List.getD_eq_getElem _ _ hlt]
    exact List.getElem_mem hlt

lemma snd_mem_of_mem_enumFrom {α : Type} :
    ∀ (l : List α) (k : ℕ) (p : ℕ × α), p ∈ l.enumFrom k → p.2 ∈ l := by
  intro l
  induction l with
  | nil => intro k p h; cases h
  | cons x xs ih =>
    intro k p h
    rw [show List.enumFrom k (x :: xs) = (k, x) :: List.enumFrom (k + 1) xs from rfl] at h
    rcases List.mem_cons.mp h with rfl | h2
    · exact List.mem_cons_self x xs
    · exact List.mem_cons_of_mem x (ih (k + 1) p h2)

lemma contrastive_loader_zero (p0 p3 n0 n3 : List Row) (np nn : ℕ)
    (pickP pickN : ℕ → ℕ) (ps ns : List Row)
    (hps : npRandomChoice p0 np pickP = some ps)
    (hns : npRandomChoice n0 nn pickN = some ns) :
    contrastive_loader 0 p0 p3 n0 n3 np nn pickP pickN = .ok (ps, ns) := by
  simp [contrastive_loader, hps, hns]

lemma contrastive_loader_three (p0 p3 n0 n3 : List Row) (np nn : ℕ)
    (pickP pickN : ℕ → ℕ) (ps ns : List Row)
    (hps : npRandomChoice p3 np pickP = some ps)
    (hns : npRandomChoice n3 nn pickN = some ns) :
    contrastive_loader 3 p0 p3 n0 n3 np nn pickP pickN = .ok (ps, ns) := by
  simp [contrastive_loader, hps, hns]

lemma contrastive_loader_ne_unbound (gid : ℤ) (p0 p3 n0 n3 : List Row) (np nn : ℕ)
    (pickP pickN : ℕ → ℕ) (h : gid = 0 ∨ gid = 3) :
    contrastive_loader gid p0 p3 n0 n3 np nn pickP pickN ≠ .error .unboundLocal := by
  rcases h with rfl | rfl
  · simp only [contrastive_loader, if_pos rfl]
    cases npRandomChoice p0 np pickP <;> cases npRandomChoice n0 nn pickN <;> simp
  · simp only [contrastive_loader]
    norm_num
    cases npRandomChoice p3 np pickP <;> cases npRandomChoice n3 nn pickN <;> simp

lemma load_contrastive_dp_mem {dp : List Row} {num_a num_p num_n : ℕ}
    {pickP pickN : ℕ → ℕ → ℕ} {r : Row} {res : Except LoaderError (List Row × List Row)}
    (hmem : (r, res) ∈ load_contrastive_dp dp num_a num_p num_n pickP pickN) :
    r ∈ dp ∧ (r.group_id = 0 ∨ r.group_id = 3) ∧
      ∃ j, res = contrastive_loader r.group_id
        (dp.filter (fun x => decide (x.group_id = 2)))
        (dp.filter (fun x => decide (x.group_id = 1)))
        (dp.filter (fun x => decide (x.group_id = 1)))
        (dp.filter (fun x => decide (x.group_id = 2)))
        num_p num_n (pickP j) (pickN j) := by
  unfold load_contrastive_dp at hmem
  simp only [List.mem_map] at hmem
  obtain ⟨jr, hjr, heq⟩ := hmem
  injection heq with hr hres
  subst hr
  have hmem2 : jr.2 ∈ dp.filter (fun x => decide (x.group_id = 0) || decide (x.group_id = 3)) :=
    snd_mem_of_mem_enumFrom _ 0 jr hjr
  rw [List.mem_filter] at hmem2
  refine ⟨hmem2.1, ?_, jr.1, hres.symm⟩
  have hor := hmem2.2
  simp only [Bool.or_eq_true, decide_eq_true_eq] at hor
  exact hor

lemma int_ediv_ediv (m a b : ℤ) (ha : 0 < a) (hb : 0 < b) : m / a / b = m / (a * b) := by
  have hab : (0:ℤ) < a * b := mul_pos ha hb
  have h1 : a * b * (m / (a * b)) + m % (a * b) = m := Int.ediv_add_emod m (a * b)
  have hr0 : 0 ≤ m % (a * b) := Int.emod_nonneg m (ne_of_gt hab)
  have hrlt : m % (a * b) < a * b := Int.emod_lt_of_pos m hab
  set q := m / (a * b) with hq
  set r := m % (a * b) with hr
  have hm : m = r + a * (b * q) := by linarith [h1]
  rw [hm, Int.add_mul_ediv_left _ _ (ne_of_gt ha), Int.add_mul_ediv_left _ _ (ne_of_gt hb)]
  have hz : r / a / b = 0 := by
    have hra : r / a < b := by
      rw [Int.ediv_lt_iff_lt_mul ha]
      linarith [mul_comm a b]
    exact Int.ediv_eq_zero_of_lt (Int.ediv_nonneg hr0 (le_of_lt ha)) hra
  simp [hz]

lemma addSubgroups_none : ∀ (l : List (Option ℤ)) (k : ℕ), addSubgroups none k l = none := by
  intro l
  induction l with
  | nil => intro k; rfl
  | cons a rest ih =>
    intro k
    cases a <;> exact ih (k + 1)

lemma addSubgroups_some : ∀ (bs : List ℤ) (t : ℤ) (k : ℕ),
    addSubgroups (some t) k (bs.map some) = some (t + 2 ^ (k + 1) * binEnc bs) := by
  intro bs
  induction bs with
  | nil => intro t k; simp [addSubgroups, binEnc]
  | cons b rest ih =>
    intro t k
    show addSubgroups (some (t + 2 ^ (k + 1) * b)) (k + 1) (rest.map some) = _
    rw [ih]
    congr 1
    rw [binEnc]
    ring

lemma addSubgroups_missing : ∀ (attrs : List (Option ℤ)) (t : ℤ) (k : ℕ),
    none ∈ attrs → addSubgroups (some t) k attrs = none := by
  intro attrs
  induction attrs with
  | nil => intro t k h; cases h
  | cons a rest ih =>
    intro t k h
    rcases List.mem_cons.mp h with rfl | h2
    · show addSubgroups none (k + 1) rest = none
      exact addSubgroups_none rest (k + 1)
    · cases a with
      | none => exact addSubgroups_none rest (k + 1)
      | some b => exact ih (t + 2 ^ (k + 1) * b) (k + 1) h2

lemma binEnc_sum : ∀ bs : List ℤ,
    (∑ i ∈ Finset.range bs.length, 2 ^ (i + 1) * bs.getD i 0) = 2 * binEnc bs := by
  intro bs
  induction bs with
  | nil => simp [binEnc]
  | cons b rest ih =>
    rw [List.length_cons, Finset.sum_range_succ']
    simp only [List.getD_cons_succ, List.getD_cons_zero, pow_one]
    have step : (∑ i ∈ Finset.range rest.length, 2 ^ (i + 1 + 1) * rest.getD i 0)
        = 2 * ∑ i ∈ Finset.range rest.length, 2 ^ (i + 1) * rest.getD i 0 := by
      rw [Finset.mul_sum]
      refine Finset.sum_congr rfl (fun i _ => ?_)
      ring
    rw [step, ih, binEnc]
    ring

lemma binEnc_div_mod : ∀ (bs : List ℤ), (∀ b ∈ bs, b = 0 ∨ b = 1) →
    ∀ i < bs.length, (binEnc bs / 2 ^ i) % 2 = bs.getD i 0 := by
  intro bs
  induction bs with
  | nil => intro _ i hi; cases hi
  | cons b rest ih =>
    intro hb i hi
    cases i with
    | zero =>
      simp only [pow_zero, Int.ediv_one, List.getD_cons_zero, binEnc]
      rw [Int.add_mul_emod_self_left]
      rcases hb b (List.mem_cons_self b rest) with rfl | rfl <;> decide
    | succ i =>
      simp only [List.getD_cons_succ, binEnc]
      have h2 : (2 : ℤ) ^ (i + 1) = 2 * 2 ^ i := by ring
      rw [h2, ← int_ediv_ediv _ 2 (2 ^ i) (by norm_num) (by positivity)]
      have hb0 : (b + 2 * binEnc rest) / 2 = binEnc rest := by
        rw [Int.add_mul_ediv_left _ _ (by norm_num : (2:ℤ) ≠ 0)]
        rcases hb b (List.mem_cons_self b rest) with rfl | rfl <;> simp
      rw [hb0]
      exact ih (fun x hx => hb x (List.mem_cons_of_mem b hx)) i (Nat.lt_of_succ_lt_succ hi)

lemma setGroupWeight_length (gids : List ℤ) (alpha : ℝ) (ws : List ℝ) (g : ℕ) :
    (setGroupWeight gids alpha ws g).length = min ws.length gids.length := by
  simp [setGroupWeight]

lemma setGroupWeight_getD (gids : List ℤ) (alpha : ℝ) (ws : List ℝ) (g : ℕ) (j : ℕ)
    (hlen : ws.length = gids.length) (hj : j < gids.length) :
    (setGroupWeight gids alpha ws g).getD j 0 =
      if gids.getD j 0 = (g : ℤ) then groupWeight gids alpha (g : ℤ) else ws.getD j 0 := by
  have hj2 : j < ws.length := by omega
  have hj3 : j < (setGroupWeight gids alpha ws g).length := by
    rw [setGroupWeight_length]; omega
  rw [List.getD_eq_getElem _ _ hj3, List.getD_eq_getElem _ _ hj2,
    List.getD_eq_getElem _ _ hj]
  simp [setGroupWeight]

lemma robust_fold (gids : List ℤ) (alpha : ℝ) :
    ∀ (gs : List ℕ) (ws : List ℝ), ws.length = gids.length → ∀ j, j < gids.length →
      (gs.foldl (setGroupWeight gids alpha) ws).getD j 0 =
        if ∃ g ∈ gs, gids.getD j 0 = (g : ℤ)
        then groupWeight gids alpha (gids.getD j 0) else ws.getD j 0 := by
  intro gs
  induction gs with
  | nil => intro ws hlen j hj; simp
  | cons g gs ih =>
    intro ws hlen j hj
    rw [List.foldl_cons]
    have hlen2 : (setGroupWeight gids alpha ws g).length = gids.length := by
      rw [setGroupWeight_length]; omega
    rw [ih _ hlen2 j hj, setGroupWeight_getD gids alpha ws g j hlen hj]
    by_cases h1 : ∃ g' ∈ gs, gids.getD j 0 = (g' : ℤ)
    · rw [if_pos h1, if_pos]
      obtain ⟨g', hg', he⟩ := h1
      exact ⟨g', List.mem_cons_of_mem g hg', he⟩
    · rw [if_neg h1]
      by_cases hc : gids.getD j 0 = (g : ℤ)
      · rw [if_pos hc, if_pos ⟨g, List.mem_cons_self g gs, hc⟩, hc]
      · rw [if_neg hc, if_neg]
        rintro ⟨g', hg', he⟩
        rcases List.mem_cons.mp hg' with rfl | hmem
        · exact hc he
        · exact h1 ⟨g', hmem, he⟩

lemma robustSamplerWeights_getD (gids : List ℤ) (nG : ℕ) (alpha : ℝ) (j : ℕ)
    (hj : j < gids.length) (h0 : 0 ≤ gids.getD j 0) (hn : gids.getD j 0 < (nG : ℤ)) :
    (robustSamplerWeights gids nG alpha).getD j 0
      = groupWeight gids alpha (gids.getD j 0) := by
  unfold robustSamplerWeights
  rw [robust_fold gids alpha (List.range nG) _ (by simp) j hj, if_pos]
  refine ⟨(gids.getD j 0).toNat, ?_, ?_⟩
  · rw [List.mem_range]
    omega
  · rw [Int.toNat_of_nonneg h0]

lemma filter_replicate_decide (n : ℕ) (a g : ℤ) :
    (List.replicate n a).filter (fun x => decide (x = g)) =
      if a = g then List.replicate n a else [] := by
  induction n with
  | zero => simp
  | succ n ih =>
    rw [List.replicate_succ, List.filter_cons]
    by_cases h : a = g
    · simp [h, ih, List.replicate_succ]
    · simp [h, ih]

lemma free_gpu_fold_extends (delete : Bool) :
    ∀ (refs : List ℕ) (h : Heap) (loc : Option ℕ),
      ∃ ext, (refs.foldl (free_gpu_step delete) (h, loc)).1.objs = h.objs ++ ext := by
  intro refs
  induction refs with
  | nil => intro h loc; exact ⟨[], by simp⟩
  | cons r rest ih =>
    intro h loc
    rw [List.foldl_cons]
    simp only [free_gpu_step]
    obtain ⟨ext, hext⟩ := ih ⟨h.objs ++ [(h.objs.getD r default).detach.cpu]⟩
      (if delete then none else some h.objs.length)
    exact ⟨[(h.objs.getD r default).detach.cpu] ++ ext, by rw [hext]; simp⟩

lemma free_gpu_fold_deleted :
    ∀ (refs : List ℕ) (h : Heap),
      (refs.foldl (free_gpu_step true) (h, none)).2 = none := by
  intro refs
  induction refs with
  | nil => intro h; rfl
  | cons r rest ih =>
    intro h
    rw [List.foldl_cons]
    exact ih _

lemma euclidDist_single (a b : ℝ) : euclidDist [a] [b] = |a - b| := by
  show Real.sqrt ((List.zipWith (fun a b => (a - b) ^ 2) [a] [b]).sum) = |a - b|
  rw [show (List.zipWith (fun a b => (a - b) ^ 2) [a] [b]).sum = (a - b) ^ 2 by simp]
  exact Real.sqrt_sq_eq_abs _

/-! ## Claim theorems -/

/-- Counterexample to claim C3: on a seven-example mini-batch whose
anchor (index 0) has five same-label companions at distances
0, 4, 5, 6, 7 and two other-label examples at distance 1, the code's
threshold is the median over ALL batch distances (4), leaving a single
positive, so the anchor is skipped; under the claim's threshold, the
median over the same-label others only (5), the anchor would get
positives {1, 2} and negatives {3, 4}. -/
theorem C3_feature_proximity_counterexample :
    cncGazeSelect [[0], [4], [5], [6], [7], [1], [1]] [0, 0, 0, 0, 0, 1, 1] 0 = none ∧
      specGazeSelect [[0], [4], [5], [6], [7], [1], [1]] [0, 0, 0, 0, 0, 1, 1] 0 =
        some ([1, 2], [3, 4]) := by
  have hd : gfeatDist [[0], [4], [5], [6], [7], [1], [1]] 0 = [0, 4, 5, 6, 7, 1, 1] := by
    simp [gfeatDist, euclidDist_single]
  constructor
  · unfold cncGazeSelect gazeSelect
    rw [hd]
    have hmed : torchMedian [0, 4, 5, 6, 7, 1, 1] = 4 := by
      norm_num [torchMedian, List.insertionSort, List.orderedInsert, List.getD]
    rw [hmed]
    norm_num [List.filter, List.range, List.range.loop, List.getD]
  · simp only [specGazeSelect]
    rw [hd]
    have hsame : (List.range ([(0:ℝ), 4, 5, 6, 7, 1, 1].length)).filter
        (fun j => decide (([0, 0, 0, 0, 0, 1, 1] : List ℤ).getD j 0 =
            ([0, 0, 0, 0, 0, 1, 1] : List ℤ).getD 0 0) && decide (j ≠ 0)) = [1, 2, 3, 4] := by
      norm_num [List.filter, List.range, List.range.loop, List.getD]
    rw [hsame]
    have hmap : ([1, 2, 3, 4] : List ℕ).map
        (fun j => ([(0:ℝ), 4, 5, 6, 7, 1, 1]).getD j 0) = [4, 5, 6, 7] := by
      norm_num [List.getD]
    rw [hmap]
    have hmed : torchMedian [4, 5, 6, 7] = 5 := by
      norm_num [torchMedian, List.insertionSort, List.orderedInsert, List.getD]
    rw [hmed]
    norm_num [List.filter, List.range, List.range.loop, List.getD]

/-- Amended claim C3: under the feature-proximity (and random-control)
policy the threshold alpha is the torch (lower) median of the distances
from the anchor to EVERY mini-batch example, the anchor included; the
negative set is exactly the same-label examples with distance > alpha,
the positive set exactly the same-label examples with distance <= alpha
excluding the anchor, and anchors with fewer than 2 positives or fewer
than 2 negatives are skipped without error. -/
theorem C3_feature_proximity_amended (gaze_features : List (List ℝ)) (targets : List ℤ)
    (a_ix : ℕ) :
    cncGazeSelect gaze_features targets a_ix
      = amendedGazeSelect gaze_features targets a_ix := by
  simp only [cncGazeSelect, gazeSelect, amendedGazeSelect]
  have hneg : (List.range (gfeatDist gaze_features a_ix).length).filter
      (fun j => decide (torchMedian (gfeatDist gaze_features a_ix) <
          (gfeatDist gaze_features a_ix).getD j 0) &&
        decide (targets.getD j 0 = targets.getD a_ix 0)) =
      (List.range (gfeatDist gaze_features a_ix).length).filter
      (fun j => decide (targets.getD j 0 = targets.getD a_ix 0) &&
        decide (torchMedian (gfeatDist gaze_features a_ix) <
          (gfeatDist gaze_features a_ix).getD j 0)) :=
    List.filter_congr (fun j _ => Bool.and_comm _ _)
  have hpos : (List.range (gfeatDist gaze_features a_ix).length).filter
      (fun j => decide ((gfeatDist gaze_features a_ix).getD j 0 ≤
          torchMedian (gfeatDist gaze_features a_ix)) &&
        decide (targets.getD j 0 = targets.getD a_ix 0) && decide (j ≠ a_ix)) =
      (List.range (gfeatDist gaze_features a_ix).length).filter
      (fun j => decide (targets.getD j 0 = targets.getD a_ix 0) &&
        decide ((gfeatDist gaze_features a_ix).getD j 0 ≤
          torchMedian (gfeatDist gaze_features a_ix)) && decide (j ≠ a_ix)) :=
    List.filter_congr (fun j _ => by
      rw [Bool.and_comm (decide ((gfeatDist gaze_features a_ix).getD j 0 ≤
        torchMedian (gfeatDist gaze_features a_ix)))
        (decide (targets.getD j 0 = targets.getD a_ix 0))])
  rw [hneg, hpos]

/-- Claim C1: for every anchor embedding, lists of positive and negative
embeddings and temperature T, SupervisedContrastiveLoss.forward returns
the negative mean over positives of
log(exp(pos_sim/T)) - log(exp(pos_sim/T) + sum over negatives of
exp(neg_sim/T)), with pos_sim/neg_sim the cosine similarities between
the anchor and each positive/negative embedding.  (Proved for all
lists, in particular the non-empty ones the claim quantifies over.) -/
theorem C1_contrastive_loss_formula (T : ℝ) (a : List ℝ) (ps ns : List (List ℝ)) :
    SupervisedContrastiveLoss.forward T a ps ns =
      SupervisedContrastiveLoss.specLoss T a ps ns := by
  unfold SupervisedContrastiveLoss.forward SupervisedContrastiveLoss.specLoss
  simp only [List.map_map, Function.comp_def, List.length_map]
  rw [neg_one_mul_map_sum
    (fun p => Real.log (Real.exp (cosineSim a p / T)) -
      Real.log (Real.exp (cosineSim a p / T) +
        (List.map (fun n => Real.exp (cosineSim a n / T)) ns).sum)) ps]
  rw [neg_div]

/-- Claim C2: every row produced by load_contrastive_dp has group_id 0
or 3, and (provided the needed strata are inhabited, as they must be for
np.random.choice not to raise) its contrastive pair holds exactly num_p
positives and num_n negatives drawn with replacement from the strata
prescribed by the anchor's group_id: positives from group 2 and
negatives from group 1 for a group-0 anchor, positives from group 1 and
negatives from group 2 for a group-3 anchor. -/
theorem C2_load_contrastive_dp_pairs (dp : List Row) (num_a num_p num_n : ℕ)
    (pickP pickN : ℕ → ℕ → ℕ) (r : Row) (res : Except LoaderError (List Row × List Row))
    (hmem : (r, res) ∈ load_contrastive_dp dp num_a num_p num_n pickP pickN)
    (h2 : ∃ x ∈ dp, x.group_id = 2) (h1 : ∃ x ∈ dp, x.group_id = 1) :
    (r.group_id = 0 ∨ r.group_id = 3) ∧
      ∃ ps ns, res = .ok (ps, ns) ∧ ps.length = num_p ∧ ns.length = num_n ∧
        (r.group_id = 0 → (∀ p ∈ ps, p.group_id = 2) ∧ (∀ n ∈ ns, n.group_id = 1)) ∧
        (r.group_id = 3 → (∀ p ∈ ps, p.group_id = 1) ∧ (∀ n ∈ ns, n.group_id = 2)) := by
  obtain ⟨-, hgid, j, hres⟩ := load_contrastive_dp_mem hmem
  obtain ⟨x2, hx2, hx2g⟩ := h2
  obtain ⟨x1, hx1, hx1g⟩ := h1
  have hne2 : dp.filter (fun x => decide (x.group_id = 2)) ≠ [] :=
    List.ne_nil_of_mem (List.mem_filter.mpr ⟨hx2, by simp [hx2g]⟩)
  have hne1 : dp.filter (fun x => decide (x.group_id = 1)) ≠ [] :=
    List.ne_nil_of_mem (List.mem_filter.mpr ⟨hx1, by simp [hx1g]⟩)
  have hmem2 : ∀ y ∈ dp.filter (fun x => decide (x.group_id = 2)), y.group_id = 2 := by
    intro y hy
    have hy2 := (List.mem_filter.mp hy).2
    simpa using hy2
  have hmem1 : ∀ y ∈ dp.filter (fun x => decide (x.group_id = 1)), y.group_id = 1 := by
    intro y hy
    have hy1 := (List.mem_filter.mp hy).2
    simpa using hy1
  refine ⟨hgid, ?_⟩
  rcases hgid with hg0 | hg3
  · obtain ⟨ps, hps, hpl, hpm⟩ := npRandomChoice_spec _ num_p (pickP j) hne2
    obtain ⟨ns, hns, hnl, hnm⟩ := npRandomChoice_spec _ num_n (pickN j) hne1
    refine ⟨ps, ns, ?_, hpl, hnl, fun _ => ⟨fun p hp => hmem2 p (hpm p hp),
      fun n hn => hmem1 n (hnm n hn)⟩,
      fun hg3 => by rw [hg3] at hg0; norm_num at hg0⟩
    rw [hres, hg0]
    exact contrastive_loader_zero _ _ _ _ _ _ _ _ _ _ hps hns
  · obtain ⟨ps, hps, hpl, hpm⟩ := npRandomChoice_spec _ num_p (pickP j) hne1
    obtain ⟨ns, hns, hnl, hnm⟩ := npRandomChoice_spec _ num_n (pickN j) hne2
    refine ⟨ps, ns, ?_, hpl, hnl,
      fun hg0 => by rw [hg0] at hg3; norm_num at hg3,
      fun _ => ⟨fun p hp => hmem1 p (hpm p hp), fun n hn => hmem2 n (hnm n hn)⟩⟩
    rw [hres, hg3]
    exact contrastive_loader_three _ _ _ _ _ _ _ _ _ _ hps hns

/-- Witness for C2 on a concrete four-row datapanel with one row per
group: the group-0 anchor receives two positives from group 2 and two
negatives from group 1. -/
theorem C2_load_contrastive_dp_pairs_witness :
    ((⟨0, 0⟩ : Row).group_id = 0 ∨ (⟨0, 0⟩ : Row).group_id = 3) ∧
      ∃ ps ns : List Row,
        (Except.ok ([⟨2, 2⟩, ⟨2, 2⟩], [⟨1, 1⟩, ⟨1, 1⟩]) :
            Except LoaderError (List Row × List Row)) = .ok (ps, ns) ∧
          ps.length = 2 ∧ ns.length = 2 ∧
          ((⟨0, 0⟩ : Row).group_id = 0 →
            (∀ p ∈ ps, p.group_id = 2) ∧ (∀ n ∈ ns, n.group_id = 1)) ∧
          ((⟨0, 0⟩ : Row).group_id = 3 →
            (∀ p ∈ ps, p.group_id = 1) ∧ (∀ n ∈ ns, n.group_id = 2)) :=
  C2_load_contrastive_dp_pairs [⟨0, 0⟩, ⟨1, 1⟩, ⟨2, 2⟩, ⟨3, 3⟩] 1 2 2
    (fun _ _ => 0) (fun _ _ => 0) ⟨0, 0⟩
    (Except.ok ([⟨2, 2⟩, ⟨2, 2⟩], [⟨1, 1⟩, ⟨1, 1⟩]))
    (by decide) (by decide) (by decide)

/-- Claim C5 (code bug): SupervisedContrastiveLoss.forward returns the
single scalar loss.mean(), so the trainer's three-way destructuring
c_loss, pos_sim_, neg_sim_ = self.contrastive_loss(...) can never
succeed: unpacking the scalar return fails for every input. -/
theorem C5_forward_returns_scalar_not_triple (T : ℝ) (a : List ℝ) (ps ns : List (List ℝ)) :
    SupervisedContrastiveLoss.unpackThree
      (SupervisedContrastiveLoss.forwardReturn T a ps ns) = none :=
  rfl

/-- Claim C6 (code bug): SupervisedContrastiveLoss.__init__ performs no
validation, so construction with temperature 0 (or negative) succeeds
instead of failing with a configuration error. -/
theorem C6_init_accepts_nonpositive_temperature :
    SupervisedContrastiveLoss.init 0 = .ok ⟨0⟩ ∧
      SupervisedContrastiveLoss.init (-1) = .ok ⟨-1⟩ :=
  ⟨rfl, rfl⟩

/-- Claim C8: the contrastive loss is invariant under any permutation of
the positive embeddings and any permutation of the negative
embeddings. -/
theorem C8_loss_permutation_invariant (T : ℝ) (a : List ℝ) (ps ps' ns ns' : List (List ℝ))
    (hp : ps.Perm ps') (hn : ns.Perm ns') :
    SupervisedContrastiveLoss.forward T a ps ns =
      SupervisedContrastiveLoss.forward T a ps' ns' := by
  unfold SupervisedContrastiveLoss.forward
  simp only [List.map_map, Function.comp_def, List.length_map]
  have hS : (List.map (fun n => Real.exp (cosineSim a n / T)) ns').sum
      = (List.map (fun n => Real.exp (cosineSim a n / T)) ns).sum :=
    ((hn.map _).sum_eq).symm
  simp only [hS]
  have hpl : ps'.length = ps.length := hp.length_eq.symm
  have hsum : (List.map (fun p => -1 * (Real.log (Real.exp (cosineSim a p / T)) -
      Real.log (Real.exp (cosineSim a p / T) +
        (List.map (fun n => Real.exp (cosineSim a n / T)) ns).sum))) ps).sum
      = (List.map (fun p => -1 * (Real.log (Real.exp (cosineSim a p / T)) -
      Real.log (Real.exp (cosineSim a p / T) +
        (List.map (fun n => Real.exp (cosineSim a n / T)) ns).sum))) ps').sum :=
    (hp.map _).sum_eq
  rw [hsum, hpl]

/-- Witness for C8: swapping two concrete positives leaves the loss
unchanged. -/
theorem C8_loss_permutation_invariant_witness :
    SupervisedContrastiveLoss.forward 1 [1, 0] [[1, 0], [0, 1]] [[1, 1]] =
      SupervisedContrastiveLoss.forward 1 [1, 0] [[0, 1], [1, 0]] [[1, 1]] :=
  C8_loss_permutation_invariant 1 [1, 0] [[1, 0], [0, 1]] [[0, 1], [1, 0]] [[1, 1]] [[1, 1]]
    (List.Perm.swap [0, 1] [1, 0] []) (List.Perm.refl _)

/-- Claim C4: the stored group_id is target plus the sum of
2^(i+1) times each subgroup bit, a missing attribute forces -1, and for
binary targets and bits the encoding round-trips through
decodeGroupId. -/
theorem C4_group_id_encoding (t : ℤ) (ht : t = 0 ∨ t = 1) (bs : List ℤ)
    (hb : ∀ b ∈ bs, b = 0 ∨ b = 1) :
    groupIdOf t (bs.map some)
        = t + ∑ i ∈ Finset.range bs.length, 2 ^ (i + 1) * bs.getD i 0
      ∧ decodeGroupId (groupIdOf t (bs.map some)) bs.length = (t, bs)
      ∧ ∀ attrs : List (Option ℤ), none ∈ attrs → groupIdOf t attrs = -1 := by
  have hg : groupIdOf t (bs.map some) = t + 2 * binEnc bs := by
    unfold groupIdOf
    rw [addSubgroups_some bs t 0]
    norm_num
  refine ⟨by rw [hg, binEnc_sum], ?_, ?_⟩
  · rw [hg]
    unfold decodeGroupId
    refine Prod.ext ?_ ?_
    · show (t + 2 * binEnc bs) % 2 = t
      rw [Int.add_mul_emod_self_left]
      rcases ht with rfl | rfl <;> decide
    · show (List.range bs.length).map (fun i => ((t + 2 * binEnc bs) / 2 ^ (i + 1)) % 2) = bs
      have hdiv : ∀ i : ℕ, (t + 2 * binEnc bs) / 2 ^ (i + 1) = binEnc bs / 2 ^ i := by
        intro i
        have h2 : (2 : ℤ) ^ (i + 1) = 2 * 2 ^ i := by ring
        rw [h2, ← int_ediv_ediv _ 2 (2 ^ i) (by norm_num) (by positivity)]
        congr 1
        rw [Int.add_mul_ediv_left _ _ (by norm_num : (2:ℤ) ≠ 0)]
        rcases ht with rfl | rfl <;> simp
      refine List.ext_getElem (by simp) ?_
      intro i hi1 hi2
      simp only [List.getElem_map, List.getElem_range]
      rw [hdiv i]
      have hlen : i < bs.length := hi2
      rw [← List.getD_eq_getElem bs 0 hlen]
      exact binEnc_div_mod bs hb i hlen
  · intro attrs hmiss
    unfold groupIdOf
    rw [addSubgroups_missing attrs t 0 hmiss]

/-- Witness for C4 at target 1 with subgroup bits [1, 0]: the stored
group_id is 3, it decodes back to (1, [1, 0]), and a missing attribute
yields -1. -/
theorem C4_group_id_encoding_witness :
    groupIdOf 1 ([(1 : ℤ), 0].map some)
        = 1 + ∑ i ∈ Finset.range 2, 2 ^ (i + 1) * ([(1 : ℤ), 0].getD i 0)
      ∧ decodeGroupId (groupIdOf 1 ([(1 : ℤ), 0].map some)) 2 = (1, [1, 0])
      ∧ ∀ attrs : List (Option ℤ), none ∈ attrs → groupIdOf 1 attrs = -1 :=
  C4_group_id_encoding 1 (Or.inr rfl) [1, 0] (by decide)

/-- Claim C7: with the robust sampler enabled, every example whose group
index lies inside the iterated group range receives draw weight
(1 + (N - count(g)) / N) ** alpha; in particular for two groups of
sizes 90 and 10 with N = 100 and alpha = 1 the minority weight is
exactly 1.9 and the majority weight exactly 1.1. -/
theorem C7_robust_sampler_weights (gids : List ℤ) (nG : ℕ) (alpha : ℝ) (j : ℕ)
    (hj : j < gids.length) (h0 : 0 ≤ gids.getD j 0) (hn : gids.getD j 0 < (nG : ℤ)) :
    (robustSamplerWeights gids nG alpha).getD j 0
      = (1 + ((gids.length : ℝ) - (countGroup gids (gids.getD j 0) : ℝ))
            / (gids.length : ℝ)) ^ alpha
    ∧ (∀ k, k < 90 →
        (robustSamplerWeights (List.replicate 90 (0 : ℤ) ++ List.replicate 10 1) 2 1).getD k 0
          = 1.1)
    ∧ (∀ k, 90 ≤ k → k < 100 →
        (robustSamplerWeights (List.replicate 90 (0 : ℤ) ++ List.replicate 10 1) 2 1).getD k 0
          = 1.9) := by
  refine ⟨robustSamplerWeights_getD gids nG alpha j hj h0 hn, ?_, ?_⟩
  · intro k hk
    have hget : (List.replicate 90 (0 : ℤ) ++ List.replicate 10 1).getD k 0 = 0 := by
      rw [List.getD_append _ _ _ _ (by simp; omega)]
      have hk2 : k < (List.replicate 90 (0 : ℤ)).length := by simp; omega
      rw [List.getD_eq_getElem _ _ hk2, List.getElem_replicate]
    rw [robustSamplerWeights_getD _ 2 1 k (by simp; omega) (by rw [hget])
      (by rw [hget]; norm_num)]
    rw [hget]
    unfold groupWeight countGroup
    rw [List.filter_append, filter_replicate_decide, filter_replicate_decide]
    norm_num
  · intro k hk1 hk2
    have hget : (List.replicate 90 (0 : ℤ) ++ List.replicate 10 1).getD k 0 = 1 := by
      rw [List.getD_append_right _ _ _ _ (by simp; omega)]
      have hk3 : k - (List.replicate 90 (0 : ℤ)).length
          < (List.replicate 10 (1 : ℤ)).length := by
        simp; omega
      rw [List.getD_eq_getElem _ _ hk3, List.getElem_replicate]
    rw [robustSamplerWeights_getD _ 2 1 k (by simp; omega) (by rw [hget]; norm_num)
      (by rw [hget]; norm_num)]
    rw [hget]
    unfold groupWeight countGroup
    rw [List.filter_append, filter_replicate_decide, filter_replicate_decide]
    norm_num

/-- Witness for C7 on the two-group list [0, 1] at index 0, carrying the
exact 90/10 weight values alongside. -/
theorem C7_robust_sampler_weights_witness :
    (robustSamplerWeights [0, 1] 2 1).getD 0 0
      = (1 + ((([(0 : ℤ), 1] : List ℤ).length : ℝ)
            - (countGroup [0, 1] (([(0 : ℤ), 1] : List ℤ).getD 0 0) : ℝ))
            / (([(0 : ℤ), 1] : List ℤ).length : ℝ)) ^ (1 : ℝ)
    ∧ (∀ k, k < 90 →
        (robustSamplerWeights (List.replicate 90 (0 : ℤ) ++ List.replicate 10 1) 2 1).getD k 0
          = 1.1)
    ∧ (∀ k, 90 ≤ k → k < 100 →
        (robustSamplerWeights (List.replicate 90 (0 : ℤ) ++ List.replicate 10 1) 2 1).getD k 0
          = 1.9) :=
  C7_robust_sampler_weights [0, 1] 2 1 0 (by decide) (by decide) (by decide)

/-- Claim C10: free_gpu only rebinds its loop variable to a fresh
detached cpu copy and deletes that local binding; every tensor the
caller passed in is left unchanged at its reference, and the final
local binding is dropped when delete is set, so the release step
modifies no state the trainer later reads. -/
theorem C10_free_gpu_no_caller_effect (h : Heap) (refs : List ℕ) (delete : Bool) (r : ℕ)
    (hr : r < h.objs.length) :
    (free_gpu h refs delete).1.objs[r]? = h.objs[r]? ∧
      (free_gpu h refs true).2 = none := by
  constructor
  · obtain ⟨ext, hext⟩ := free_gpu_fold_extends delete refs h none
    show (refs.foldl (free_gpu_step delete) (h, none)).1.objs[r]? = _
    rw [hext, List.getElem?_append, if_pos hr]
  · exact free_gpu_fold_deleted refs h

/-- Witness for C10: a heap with one gpu tensor passed to free_gpu with
delete on keeps that tensor unchanged and drops the local binding. -/
theorem C10_free_gpu_no_caller_effect_witness :
    (free_gpu ⟨[⟨[3], true, true⟩]⟩ [0] true).1.objs[0]?
        = (Heap.mk [⟨[3], true, true⟩]).objs[0]? ∧
      (free_gpu ⟨[⟨[3], true, true⟩]⟩ [0] true).2 = none :=
  C10_free_gpu_no_caller_effect ⟨[⟨[3], true, true⟩]⟩ [0] true 0 (by simp)

/-- Claim C9: contrastive_loader leaves positive_entry/negative_entry
unassigned (a run-time failure) for every anchor group_id other than 0
and 3, and through load_contrastive_dp that failure is unreachable: the
majority mask restricts the anchors to rows with group_id 0 or 3. -/
theorem C9_unbound_local_unreachable :
    (∀ (gid : ℤ) (p0 p3 n0 n3 : List Row) (np nn : ℕ) (pickP pickN : ℕ → ℕ),
      gid ≠ 0 → gid ≠ 3 →
        contrastive_loader gid p0 p3 n0 n3 np nn pickP pickN = .error .unboundLocal) ∧
    (∀ (dp : List Row) (num_a np nn : ℕ) (pickP pickN : ℕ → ℕ → ℕ) (r : Row)
        (res : Except LoaderError (List Row × List Row)),
      (r, res) ∈ load_contrastive_dp dp num_a np nn pickP pickN →
        res ≠ .error .unboundLocal) := by
  constructor
  · intro gid p0 p3 n0 n3 np nn pickP pickN h0 h3
    simp only [contrastive_loader, if_neg h0, if_neg h3]
  · intro dp num_a np nn pickP pickN r res hmem
    obtain ⟨-, hgid, j, hres⟩ := load_contrastive_dp_mem hmem
    rw [hres]
    exact contrastive_loader_ne_unbound _ _ _ _ _ _ _ _ _ hgid

/-- Witness for C9: a group-1 anchor makes contrastive_loader fail with
the unbound-local error, and the pair attached to the group-0 anchor of
a concrete datapanel is not that error. -/
theorem C9_unbound_local_unreachable_witness :
    contrastive_loader 1 [] [] [] [] 1 1 (fun _ => 0) (fun _ => 0) = .error .unboundLocal ∧
      (Except.ok ([⟨2, 2⟩, ⟨2, 2⟩], [⟨1, 1⟩, ⟨1, 1⟩]) :
          Except LoaderError (List Row × List Row)) ≠ .error .unboundLocal :=
  ⟨C9_unbound_local_unreachable.1 1 [] [] [] [] 1 1 _ _ (by decide) (by decide),
    C9_unbound_local_unreachable.2 [⟨0, 0⟩, ⟨1, 1⟩, ⟨2, 2⟩, ⟨3, 3⟩] 1 2 2
      (fun _ _ => 0) (fun _ _ => 0) ⟨0, 0⟩ _ (by decide)⟩

end Domino

